import Mathlib

/-!
Shallow embedding of the evosax strategy files under `src/evosax/` and
verification of the spec claims about them.

Conventions of the embedding:
* JAX arrays are total functions `ℕ → ℚ` / `ℕ → ℝ` (vectors) and
  `ℕ → ℕ → ℚ` / `ℕ → ℕ → ℝ` (matrices, row index first); only indices
  below the configured sizes are ever relevant.
* Randomness is made explicit: every function that consumes random draws
  takes the drawn array as an argument.
* Strategies whose update rules are built from field operations, `min`,
  `max` and division are modelled over `ℚ` (exact, decidable); the ones
  whose update rules involve `exp`, `log` or `sqrt` are modelled over `ℝ`.
-/

namespace Evosax

/-! ## PEPG_ES (`src/evosax/strategies/pepg_es.py`), exact rational model -/

/-- Python `int()` truncation toward zero, on a rational. -/
def pyInt (q : ℚ) : ℤ := if 0 ≤ q then ⌊q⌋ else ⌈q⌉

/-- `self.elite_popsize = int(self.popsize / 2 * self.elite_ratio)`
(pepg_es.py line 17); `popsize / 2` is exact since popsize is even. -/
def pepgElitePopsize (popsize : ℕ) (elite_ratio : ℚ) : ℕ :=
  (pyInt ((popsize : ℚ) / 2 * elite_ratio)).toNat

/-- `jnp.minimum(fit_1, fit_2)` (pepg_es.py line 74). -/
def pepgMinFit (fit1 fit2 : ℕ → ℚ) : ℕ → ℚ := fun i => min (fit1 i) (fit2 i)

/-- `key.argsort()` restricted to the first `n` entries: the index list
`[0, …, n-1]` stably sorted by the key (jnp.argsort is a stable sort). -/
def argsortQ (key : ℕ → ℚ) (n : ℕ) : List ℕ :=
  (List.range n).mergeSort (fun i j => decide (key i ≤ key j))

/-- `elite_idx = jnp.minimum(fit_1, fit_2).argsort()[: self.elite_popsize]`
(pepg_es.py line 74), with `n` the half population size and `k` the elite
count. -/
def pepgEliteIdx (k n : ℕ) (key : ℕ → ℚ) : List ℕ := (argsortQ key n).take k

/-- The elite index list as `tell_strategy` computes it from the full
fitness batch: `fit_1 = fitness[:h]`, `fit_2 = fitness[h:]`
(pepg_es.py lines 71-74). -/
def pepgTellElite (k h : ℕ) (fitness : ℕ → ℚ) : List ℕ :=
  pepgEliteIdx k h (pepgMinFit (fun i => fitness i) (fun i => fitness (h + i)))

/-- Strategy-level parameters of PEPG (pepg_es.py lines 26-34) together with
the learning-rate parameters of its default optimizer. -/
structure PepgParams where
  sigma_init : ℚ
  sigma_decay : ℚ
  sigma_limit : ℚ
  sigma_lrate : ℚ
  sigma_max_change : ℚ
  lrate_init : ℚ
  lrate_decay : ℚ
  lrate_limit : ℚ

/-- PEPG search state (pepg_es.py lines 48-54).  The unused `fitness`
placeholder field of the source state dict is omitted: `tell_strategy`
never reads it.  SGD (the default optimizer of PEPG) carries no extra
accumulator state beyond `lrate`. -/
structure PepgState where
  mean : ℕ → ℚ
  sigma : ℕ → ℚ
  lrate : ℚ

/-- `initialize_strategy` of PEPG (pepg_es.py lines 36-55): `mean` is the
random draw (passed explicitly), `sigma = ones * sigma_init`,
`lrate = lrate_init`. -/
def pepgInit (p : PepgParams) (mean0 : ℕ → ℚ) : PepgState :=
  { mean := mean0, sigma := fun _ => p.sigma_init, lrate := p.lrate_init }

/-- The antithetic concatenation `jnp.concatenate([z_plus, -1.0 * z_plus])`:
rows `0..h-1` are the drawn rows, rows `h..2h-1` their exact negations. -/
def antithetic {α : Type} [Neg α] (h : ℕ) (z : ℕ → ℕ → α) : ℕ → ℕ → α :=
  fun i j => if i < h then z i j else -(z (i - h) j)

/-- `ask_strategy` of PEPG (pepg_es.py lines 57-66): candidates are
`mean + z * sigma` with `z` the antithetic noise built from the drawn
half-batch `zPlus`; the state is returned unchanged. -/
def pepgAsk (h : ℕ) (zPlus : ℕ → ℕ → ℚ) (s : PepgState) :
    (ℕ → ℕ → ℚ) × PepgState :=
  (fun i j => s.mean j + antithetic h zPlus i j * s.sigma j, s)

/-- `tell_strategy` of PEPG (pepg_es.py lines 68-104) for half population
size `h` and elite count `k`.  The gradient step is the strategy's default
`sgd` optimizer; `GradientOptimizer` itself is not under `src/`, so its
step/update are Modelled from the spec (§4.1): SGD delta `lrate * grad`
applied to the mean, then `lrate` decay-then-floor. -/
def pepgTell (h k : ℕ) (p : PepgParams) (x : ℕ → ℕ → ℚ) (fitness : ℕ → ℚ)
    (s : PepgState) : PepgState :=
  let noise : ℕ → ℕ → ℚ := fun i j => (x i j - s.mean j) / s.sigma j
  let fit1 : ℕ → ℚ := fun i => fitness i
  let fit2 : ℕ → ℚ := fun i => fitness (h + i)
  let elite : List ℕ := pepgTellElite k h fitness
  let fitDiffNoise : ℕ → ℚ :=
    fun j => (elite.map (fun i => noise i j * (fit1 i - fit2 i))).sum
  let thetaGrad : ℕ → ℚ := fun j => 1 / (k : ℚ) * fitDiffNoise j
  -- optimizer.step (sgd) and optimizer.update, Modelled from the spec
  let mean1 : ℕ → ℚ := fun j => s.mean j - s.lrate * thetaGrad j
  let lrate1 : ℚ := max (s.lrate * p.lrate_decay) p.lrate_limit
  let S : ℕ → ℕ → ℚ :=
    fun i j => (noise i j * noise i j - s.sigma j * s.sigma j) / s.sigma j
  let meanElite : ℚ :=
    ((elite.map fit1).sum + (elite.map fit2).sum) / (2 * elite.length)
  let rS : ℕ → ℚ := fun i => (fit1 i + fit2 i) / 2 - meanElite
  let deltaSigma : ℕ → ℚ := fun j => (∑ i in Finset.range h, rS i * S i j) / k
  let changeSigma : ℕ → ℚ :=
    fun j => max (min (p.sigma_lrate * deltaSigma j)
                      (p.sigma_max_change * s.sigma j))
                 (-(p.sigma_max_change * s.sigma j))
  { mean := mean1,
    sigma := fun j => max ((s.sigma j - changeSigma j) * p.sigma_decay)
                          p.sigma_limit,
    lrate := lrate1 }

/-- `n` consecutive `tell` calls of PEPG, the `t`-th call receiving
candidates `xs t` and fitness `fs t`. -/
def pepgIter (h k : ℕ) (p : PepgParams) (xs : ℕ → ℕ → ℕ → ℚ)
    (fs : ℕ → ℕ → ℚ) : ℕ → PepgState → PepgState
  | 0, s => s
  | n + 1, s => pepgTell h k p (xs n) (fs n) (pepgIter h k p xs fs n s)

/-! ## PSO_ES (`src/evosax/strategies/pso_es.py`), exact rational model -/

/-- PSO search state (pso_es.py lines 30-38). -/
structure PsoState where
  archive : ℕ → ℕ → ℚ
  fitness : ℕ → ℚ
  velocity : ℕ → ℕ → ℚ
  best_archive : ℕ → ℕ → ℚ
  best_fitness : ℕ → ℚ

/-- The boolean mask `replace = fitness <= state["best_fitness"]`
(pso_es.py line 77) as a 0/1 rational, exactly as the source then uses it
in arithmetic blends. -/
def psoReplace (fitness best : ℕ → ℚ) : ℕ → ℚ :=
  fun i => if fitness i ≤ best i then 1 else 0

/-- `tell` of PSO (pso_es.py lines 69-82): `archive` and `fitness` are
replaced unconditionally by the evaluated batch; the personal bests are
updated through the arithmetic blend
`replace * new + (1 - replace) * old`. -/
def psoTell (x : ℕ → ℕ → ℚ) (fitness : ℕ → ℚ) (s : PsoState) : PsoState :=
  { archive := x,
    fitness := fitness,
    velocity := s.velocity,
    best_archive := fun i j =>
      psoReplace fitness s.best_fitness i * x i j
        + (1 - psoReplace fitness s.best_fitness i) * s.best_archive i j,
    best_fitness := fun i =>
      psoReplace fitness s.best_fitness i * fitness i
        + (1 - psoReplace fitness s.best_fitness i) * s.best_fitness i }

/-! ## Adam optimizer

`adam_step` / `GradientOptimizer` live in `evosax/utils`, which is not
under `src/`; they are modelled from the spec (§4.1). -/

/-- Optimizer-side state threaded through the NES-family strategies:
search mean, Adam first/second moment estimates, the decaying learning
rate, and the step counter used by Adam's bias correction (the spec's
generation counter). -/
structure AdamState where
  mean : ℕ → ℝ
  m : ℕ → ℝ
  v : ℕ → ℝ
  lrate : ℝ
  t : ℕ

/-- Adam hyperparameters and the shared learning-rate decay/floor policy
(spec §4.1). -/
structure AdamParams where
  beta_1 : ℝ
  beta_2 : ℝ
  eps : ℝ
  lrate_decay : ℝ
  lrate_limit : ℝ

/-- Modelled from the spec: the Adam optimizer step (`adam_step` of
`evosax/utils`, not under `src/`; spec §4.1): bias-corrected
first/second moment estimates, delta `lrate * mhat / (sqrt vhat + eps)`
subtracted from the mean (minimization). -/
noncomputable def adamStep (p : AdamParams) (s : AdamState) (grad : ℕ → ℝ) : AdamState :=
  let t1 := s.t + 1
  let m1 : ℕ → ℝ := fun j => p.beta_1 * s.m j + (1 - p.beta_1) * grad j
  let v1 : ℕ → ℝ := fun j => p.beta_2 * s.v j + (1 - p.beta_2) * grad j ^ 2
  let mhat : ℕ → ℝ := fun j => m1 j / (1 - p.beta_1 ^ t1)
  let vhat : ℕ → ℝ := fun j => v1 j / (1 - p.beta_2 ^ t1)
  { mean := fun j => s.mean j - s.lrate * mhat j / (Real.sqrt (vhat j) + p.eps),
    m := m1, v := v1, lrate := s.lrate, t := t1 }

/-- Modelled from the spec: `optimizer.update` (spec §4.1), the shared
learning-rate decay-then-floor policy `lrate *= decay; lrate = max(lrate,
floor)` applied once per `tell`. -/
noncomputable def optUpdate (p : AdamParams) (s : AdamState) : AdamState :=
  { s with lrate := max (s.lrate * p.lrate_decay) p.lrate_limit }

/-! ## Open_NES (`src/evosax/strategies/open_nes.py`), real model -/

/-- Parameters of Open_NES (open_nes.py lines 12-26). -/
structure OpenParams where
  lrate_init : ℝ
  lrate_decay : ℝ
  lrate_limit : ℝ
  beta_1 : ℝ
  beta_2 : ℝ
  eps : ℝ
  sigma_init : ℝ
  sigma_decay : ℝ
  sigma_limit : ℝ

/-- The Adam-related slice of the Open_NES parameters. -/
def OpenParams.adam (p : OpenParams) : AdamParams :=
  { beta_1 := p.beta_1, beta_2 := p.beta_2, eps := p.eps,
    lrate_decay := p.lrate_decay, lrate_limit := p.lrate_limit }

/-- The default parameters of Open_NES (open_nes.py lines 15-25),
as exact rationals embedded in ℝ. -/
noncomputable def openDefaultParams : OpenParams :=
  { lrate_init := 1 / 100, lrate_decay := 999 / 1000, lrate_limit := 1 / 100,
    beta_1 := 99 / 100, beta_2 := 999 / 1000, eps := 1 / 10 ^ 8,
    sigma_init := 1 / 10, sigma_decay := 999 / 1000, sigma_limit := 1 / 10 }

/-- Open_NES search state (open_nes.py lines 36-42): `mean`, scalar
`sigma`, `lrate` and the Adam accumulators `m`, `v`. -/
structure OpenState where
  opt : AdamState
  sigma : ℝ

/-- `initialize_strategy` of Open_NES (open_nes.py lines 28-43). -/
noncomputable def openInit (p : OpenParams) (mean0 : ℕ → ℝ) : OpenState :=
  { opt := { mean := mean0, m := fun _ => 0, v := fun _ => 0,
             lrate := p.lrate_init, t := 0 },
    sigma := p.sigma_init }

/-- `ask_strategy` of Open_NES (open_nes.py lines 45-54): candidates are
`mean + sigma * z`; the state is returned unchanged. -/
noncomputable def openAsk (h : ℕ) (zPlus : ℕ → ℕ → ℝ) (s : OpenState) :
    (ℕ → ℕ → ℝ) × OpenState :=
  (fun i j => s.opt.mean j + s.sigma * antithetic h zPlus i j, s)

/-- The reconstructed noise `noise = (x - state["mean"]) / state["sigma"]`
(open_nes.py line 59). -/
noncomputable def openNoise (s : OpenState) (x : ℕ → ℕ → ℝ) : ℕ → ℕ → ℝ :=
  fun i j => (x i j - s.opt.mean j) / s.sigma

/-- The natural-gradient estimate
`theta_grad = 1 / (popsize * sigma) * noise.T @ fitness`
(open_nes.py lines 60-62). -/
noncomputable def openGrad (P : ℕ) (s : OpenState) (x : ℕ → ℕ → ℝ) (fitness : ℕ → ℝ) :
    ℕ → ℝ :=
  fun j => 1 / (P * s.sigma) * ∑ i in Finset.range P, openNoise s x i j * fitness i

/-- `tell_strategy` of Open_NES (open_nes.py lines 56-73): the gradient
estimate is fed to the Adam step, then `lrate` and `sigma` are decayed
and floored. -/
noncomputable def openTell (P : ℕ) (p : OpenParams) (x : ℕ → ℕ → ℝ) (fitness : ℕ → ℝ)
    (s : OpenState) : OpenState :=
  let s1 := adamStep p.adam s.opt (openGrad P s x fitness)
  { opt := { s1 with lrate := max (s1.lrate * p.lrate_decay) p.lrate_limit },
    sigma := max (s.sigma * p.sigma_decay) p.sigma_limit }

/-- `n` consecutive `tell` calls of Open_NES. -/
noncomputable def openIter (P : ℕ) (p : OpenParams) (xs : ℕ → ℕ → ℕ → ℝ)
    (fs : ℕ → ℕ → ℝ) : ℕ → OpenState → OpenState
  | 0, s => s
  | n + 1, s => openTell P p (xs n) (fs n) (openIter P p xs fs n s)

/-! ## Persistent_ES (`src/evosax/strategies/persistent_es.py`), real model -/

/-- Parameters of Persistent_ES (persistent_es.py lines 18-29), together
with the parameters of its default `adam` optimizer. -/
structure PersParams where
  sigma_init : ℝ
  sigma_decay : ℝ
  sigma_limit : ℝ
  T : ℕ
  K : ℕ
  lrate_init : ℝ
  adam : AdamParams

/-- Persistent_ES search state (persistent_es.py lines 39-46): the
optimizer state plus scalar `sigma`, the perturbation accumulator matrix
and the inner-step counter. -/
structure PersState where
  opt : AdamState
  sigma : ℝ
  pert_accum : ℕ → ℕ → ℝ
  inner_step_counter : ℕ

/-- `initialize_strategy` of Persistent_ES (persistent_es.py lines 31-46). -/
noncomputable def persInit (p : PersParams) (mean0 : ℕ → ℝ) : PersState :=
  { opt := { mean := mean0, m := fun _ => 0, v := fun _ => 0,
             lrate := p.lrate_init, t := 0 },
    sigma := p.sigma_init,
    pert_accum := fun _ _ => 0,
    inner_step_counter := 0 }

/-- The scaled antithetic perturbations of `ask_strategy`
(persistent_es.py lines 51-56): `pos_perts = normal * sigma`,
`perts = concatenate([pos_perts, -pos_perts])`. -/
noncomputable def persPerts (h : ℕ) (sigma : ℝ) (z : ℕ → ℕ → ℝ) : ℕ → ℕ → ℝ :=
  antithetic h (fun i j => z i j * sigma)

/-- `ask_strategy` of Persistent_ES (persistent_es.py lines 48-60): the
fresh perturbations are ADDED into the accumulator
(`state["pert_accum"] += perts`), and the candidates are
`mean + perts`. -/
noncomputable def persAsk (h : ℕ) (zPlus : ℕ → ℕ → ℝ) (s : PersState) :
    (ℕ → ℕ → ℝ) × PersState :=
  (fun i j => s.opt.mean j + persPerts h s.sigma zPlus i j,
   { s with pert_accum := fun i j =>
       s.pert_accum i j + persPerts h s.sigma zPlus i j })

/-- `tell_strategy` of Persistent_ES (persistent_es.py lines 62-85):
gradient estimate from the accumulator, Adam step, `optimizer.update`,
counter increment by `K`, sigma decay/floor, then the conditional reset
of counter and accumulator when the counter has reached `T`. -/
noncomputable def persTell (P : ℕ) (p : PersParams) (fitness : ℕ → ℝ) (s : PersState) :
    PersState :=
  let thetaGrad : ℕ → ℝ := fun j =>
    (∑ i in Finset.range P, s.pert_accum i j * fitness i / s.sigma ^ 2) / P
  let opt1 := optUpdate p.adam (adamStep p.adam s.opt thetaGrad)
  let c := s.inner_step_counter + p.K
  { opt := opt1,
    sigma := max (s.sigma * p.sigma_decay) p.sigma_limit,
    inner_step_counter := if p.T ≤ c then 0 else c,
    pert_accum := if p.T ≤ c then (fun _ _ => 0) else s.pert_accum }

/-- `n` consecutive `tell` calls of Persistent_ES. -/
noncomputable def persIter (P : ℕ) (p : PersParams) (fs : ℕ → ℕ → ℝ) :
    ℕ → PersState → PersState
  | 0, s => s
  | n + 1, s => persTell P p (fs n) (persIter P p fs n s)

/-! ## SNES (`src/evosax/v2/snes.py`), real model

The population is indexed by `Fin P` here so that the fitness argsort can
be modelled by Mathlib's sorting permutation `Tuple.sort`. -/

/-- `get_snes_weights` (snes.py lines 36-44) with its default
`use_baseline = True`, as used at strategy initialization (snes.py
line 105): rank `i` (0-based; the source ranks run `1..popsize`) gets
`max(0, log(popsize/2 + 1) - log(i+1))`, normalized to sum one, minus the
baseline `1/popsize`. -/
noncomputable def get_snes_weights (popsize : ℕ) : Fin popsize → ℝ :=
  fun i =>
    max 0 (Real.log ((popsize : ℝ) / 2 + 1) - Real.log ((i : ℕ) + 1))
      / (∑ k in Finset.range popsize,
          max 0 (Real.log ((popsize : ℝ) / 2 + 1) - Real.log ((k : ℝ) + 1)))
      - 1 / (popsize : ℝ)

/-- The recombination weights exactly as the spec sentence behind C6
words them, WITHOUT the clamp `max(0, ·)` of the source: used only to
compare the claim against `get_snes_weights`. -/
noncomputable def snesWeightsClaimed (popsize : ℕ) : Fin popsize → ℝ :=
  fun i =>
    (Real.log ((popsize : ℝ) / 2 + 1) - Real.log ((i : ℕ) + 1))
      / (∑ k in Finset.range popsize,
          (Real.log ((popsize : ℝ) / 2 + 1) - Real.log ((k : ℝ) + 1)))
      - 1 / (popsize : ℝ)

/-- SNES parameters (snes.py lines 18-27); the clip bounds and init
bounds are irrelevant to the claims and omitted. -/
structure SnesParams where
  lrate_mean : ℝ
  lrate_sigma : ℝ
  sigma_init : ℝ
  temperature : ℝ

/-- SNES `EvoState` (snes.py lines 10-15). -/
structure SnesState (P : ℕ) where
  mean : ℕ → ℝ
  sigma : ℕ → ℝ
  weights : Fin P → ℝ
  gen_counter : ℕ

/-- SNES `EvoUpdate` (snes.py lines 30-33). -/
structure SnesUpdate where
  delta_mean : ℕ → ℝ
  delta_sigma : ℕ → ℝ

/-- `initialize_strategy` of SNES (snes.py lines 92-113): the weights are
`get_des_weights` when `temperature > 0` and `get_snes_weights`
otherwise (`jax.lax.select`).  `get_des_weights` lives in
`evosax/strategies/des.py`, which is not under `src/`; it is passed here
as the explicit argument `desW`. -/
noncomputable def snesInit (P : ℕ) (desW : Fin P → ℝ) (mean0 : ℕ → ℝ)
    (p : SnesParams) : SnesState P :=
  { mean := mean0,
    sigma := fun _ => p.sigma_init,
    weights := if 0 < p.temperature then desW else get_snes_weights P,
    gen_counter := 0 }

/-- `ask_strategy` of SNES (snes.py lines 115-123): plain (non-antithetic)
Gaussian sampling `mean + noise * sigma`; the state is returned
unchanged. -/
noncomputable def snesAsk (P : ℕ) (noise : Fin P → ℕ → ℝ) (s : SnesState P) :
    (Fin P → ℕ → ℝ) × SnesState P :=
  (fun i j => s.mean j + noise i j * s.sigma j, s)

/-- The fitness argsort `ranks = fitness.argsort()` of `get_update_strategy`
(snes.py line 134): the permutation of `Fin P` along which the fitness is
sorted ascending. -/
noncomputable def snesRanks (P : ℕ) (fitness : Fin P → ℝ) :
    Equiv.Perm (Fin P) :=
  Tuple.sort fitness

/-- The row of reconstructed, fitness-sorted noise
`sorted_noise = s[ranks]` with `s = (x - mean) / sigma`
(snes.py lines 133-135). -/
noncomputable def snesSortedNoise (P : ℕ) (x : Fin P → ℕ → ℝ)
    (fitness : Fin P → ℝ) (s : SnesState P) : Fin P → ℕ → ℝ :=
  fun i j => (x (snesRanks P fitness i) j - s.mean j) / s.sigma j

/-- `get_update_strategy` of SNES (snes.py lines 125-140). -/
noncomputable def snesGetUpdate (P : ℕ) (x : Fin P → ℕ → ℝ)
    (fitness : Fin P → ℝ) (s : SnesState P) (p : SnesParams) : SnesUpdate :=
  { delta_mean := fun j =>
      p.lrate_mean * s.sigma j
        * ∑ i : Fin P, s.weights i * snesSortedNoise P x fitness s i j,
    delta_sigma := fun j =>
      Real.exp (p.lrate_sigma / 2
        * ∑ i : Fin P, s.weights i * (snesSortedNoise P x fitness s i j ^ 2 - 1)) }

/-- `apply_update_strategy` of SNES (snes.py lines 142-153):
`mean + delta_mean` and `sigma * delta_sigma`; the cross-worker
`jax.lax.pmean` is the identity on a single worker, which is the setting
of the claims.  `state.replace` keeps `weights` and `gen_counter`. -/
noncomputable def snesApplyUpdate (P : ℕ) (u : SnesUpdate) (s : SnesState P)
    (_p : SnesParams) : SnesState P :=
  { s with mean := fun j => s.mean j + u.delta_mean j,
           sigma := fun j => s.sigma j * u.delta_sigma j }

/-! ## Concrete instances used by witnesses -/

/-- A concrete PEPG parameter record with `sigma_init = sigma_limit` and
`lrate_init = lrate_limit`, used by witnesses. -/
def wPepgParams : PepgParams :=
  { sigma_init := 1 / 10, sigma_decay := 999 / 1000, sigma_limit := 1 / 10,
    sigma_lrate := 1 / 5, sigma_max_change := 1 / 5,
    lrate_init := 1 / 100, lrate_decay := 999 / 1000, lrate_limit := 1 / 100 }

/-- A concrete Persistent_ES parameter record with
`sigma_init = sigma_limit` and `lrate_init = lrate_limit`, used by
witnesses. -/
noncomputable def wPersParams : PersParams :=
  { sigma_init := 1 / 10, sigma_decay := 999 / 1000, sigma_limit := 1 / 10,
    T := 100, K := 10, lrate_init := 3 / 1000,
    adam := { beta_1 := 99 / 100, beta_2 := 999 / 1000, eps := 1 / 10 ^ 8,
              lrate_decay := 999 / 1000, lrate_limit := 3 / 1000 } }

/-- A concrete Open_NES state with `sigma = 1`, used by witnesses. -/
noncomputable def wOpenState : OpenState :=
  { opt := { mean := fun _ => 0, m := fun _ => 0, v := fun _ => 0,
             lrate := 1, t := 0 },
    sigma := 1 }

/-! ## Theorems -/

/-- The first `k` indices of an argsort are valid, distinct, and their
keys are below the keys of every index left out. -/
lemma argsort_take_spec (k n : ℕ) (key : ℕ → ℚ) :
    ((argsortQ key n).take k).length = min k n
    ∧ ((argsortQ key n).take k).Nodup
    ∧ (∀ i ∈ (argsortQ key n).take k, i < n)
    ∧ (∀ i ∈ (argsortQ key n).take k, ∀ j < n, j ∉ (argsortQ key n).take k →
        key i ≤ key j) := by
  have hperm : (argsortQ key n).Perm (List.range n) :=
    List.mergeSort_perm (List.range n) _
  have hsorted : List.Pairwise (fun a b => decide (key a ≤ key b) = true)
      (argsortQ key n) := by
    apply List.sorted_mergeSort
    · intro a b c hab hbc
      simp only [decide_eq_true_eq] at *
      exact le_trans hab hbc
    · intro a b
      simp only [Bool.or_eq_true, decide_eq_true_eq]
      exact le_total _ _
  refine ⟨?_, ?_, ?_, ?_⟩
  · simp [List.length_take, hperm.length_eq]
  · exact ((hperm.nodup_iff.mpr (List.nodup_range n)).sublist
      (List.take_sublist k _))
  · intro i hi
    have hmem : i ∈ argsortQ key n := List.mem_of_mem_take hi
    simpa using hperm.mem_iff.mp hmem
  · intro i hi j hj hjn
    have hjmem : j ∈ argsortQ key n := hperm.mem_iff.mpr (by simpa using hj)
    have hsplit : argsortQ key n
        = (argsortQ key n).take k ++ (argsortQ key n).drop k :=
      (List.take_append_drop k _).symm
    have hjd : j ∈ (argsortQ key n).drop k := by
      rw [hsplit] at hjmem
      rcases List.mem_append.mp hjmem with hcase | hcase
      · exact absurd hcase hjn
      · exact hcase
    have hsorted2 := hsorted
    rw [hsplit] at hsorted2
    have hcross := (List.pairwise_append.mp hsorted2).2.2
    exact of_decide_eq_true (hcross i hi j hjd)

/-- C1: for PEPG built with population size `popsize` and elite ratio
`r ≥ 0`, the elite count is `⌊popsize/2 * r⌋`, and in every tell call the
selected elite pair indices (source: the lowest `min(fit_1, fit_2)`
values) are `min k h` distinct indices below the half size `h` whose
`min(fit_1, fit_2)` value is at most that of every non-selected pair. -/
theorem pepg_elite_count_and_selection (popsize : ℕ) (r : ℚ) (hr : 0 ≤ r)
    (k h : ℕ) (fitness : ℕ → ℚ) :
    ((pepgElitePopsize popsize r : ℤ) = ⌊(popsize : ℚ) / 2 * r⌋)
    ∧ (pepgTellElite k h fitness).length = min k h
    ∧ (pepgTellElite k h fitness).Nodup
    ∧ (∀ i ∈ pepgTellElite k h fitness, i < h)
    ∧ (∀ i ∈ pepgTellElite k h fitness, ∀ j < h,
        j ∉ pepgTellElite k h fitness →
        min (fitness i) (fitness (h + i)) ≤ min (fitness j) (fitness (h + j))) := by
  have hq : 0 ≤ (popsize : ℚ) / 2 * r := by positivity
  have h1 : (pepgElitePopsize popsize r : ℤ) = ⌊(popsize : ℚ) / 2 * r⌋ := by
    simp only [pepgElitePopsize, pyInt, if_pos hq]
    exact Int.toNat_of_nonneg (Int.floor_nonneg.mpr hq)
  have hspec := argsort_take_spec k h
    (pepgMinFit (fun i => fitness i) (fun i => fitness (h + i)))
  exact ⟨h1, hspec.1, hspec.2.1, hspec.2.2.1, hspec.2.2.2⟩

/-- Witness for C1 at `popsize = 4`, `r = 1`, `k = 2`, `h = 2` and the
concrete fitness batch `[3, 1, 5, 2]`. -/
theorem pepg_elite_count_and_selection_witness :
    (0 : ℚ) ≤ 1
    ∧ (((pepgElitePopsize 4 1 : ℤ) = ⌊(4 : ℚ) / 2 * 1⌋)
      ∧ (pepgTellElite 2 2 (fun i => [(3 : ℚ), 1, 5, 2].getD i 0)).length = min 2 2
      ∧ (pepgTellElite 2 2 (fun i => [(3 : ℚ), 1, 5, 2].getD i 0)).Nodup
      ∧ (∀ i ∈ pepgTellElite 2 2 (fun i => [(3 : ℚ), 1, 5, 2].getD i 0), i < 2)
      ∧ (∀ i ∈ pepgTellElite 2 2 (fun i => [(3 : ℚ), 1, 5, 2].getD i 0), ∀ j < 2,
          j ∉ pepgTellElite 2 2 (fun i => [(3 : ℚ), 1, 5, 2].getD i 0) →
          min ([(3 : ℚ), 1, 5, 2].getD i 0) ([(3 : ℚ), 1, 5, 2].getD (2 + i) 0)
            ≤ min ([(3 : ℚ), 1, 5, 2].getD j 0) ([(3 : ℚ), 1, 5, 2].getD (2 + j) 0))) :=
  ⟨zero_le_one,
   pepg_elite_count_and_selection 4 1 zero_le_one 2 2
     (fun i => [(3 : ℚ), 1, 5, 2].getD i 0)⟩

/-- C8: at `popsize = 4`, `elite_ratio = 1/10` the elite count is `0`, the
selected elite list of every tell call is empty, and `tell_strategy` still
divides its gradient and sigma statistics by this zero elite count
(pepg_es.py lines 80 and 90) — there is no explicit guard. -/
theorem pepg_degenerate_elite :
    pepgElitePopsize 4 (1 / 10) = 0
    ∧ ∀ fitness : ℕ → ℚ,
        pepgTellElite (pepgElitePopsize 4 (1 / 10)) 2 fitness = [] := by
  have h0 : pepgElitePopsize 4 (1 / 10) = 0 := by
    norm_num [pepgElitePopsize, pyInt]
  exact ⟨h0, fun fitness => by rw [h0]; rfl⟩

/-- C7: after a PSO `tell`, each particle's personal best fitness never
increases; the personal best position is replaced by the new position
exactly when the new fitness is `≤` the stored best (ties favoring the
update) and kept otherwise; `archive` and `fitness` are replaced
unconditionally. -/
theorem pso_personal_best (x : ℕ → ℕ → ℚ) (fitness : ℕ → ℚ) (s : PsoState)
    (i j : ℕ) :
    (psoTell x fitness s).best_fitness i ≤ s.best_fitness i
    ∧ (psoTell x fitness s).best_fitness i
        = (if fitness i ≤ s.best_fitness i then fitness i else s.best_fitness i)
    ∧ (psoTell x fitness s).best_archive i j
        = (if fitness i ≤ s.best_fitness i then x i j else s.best_archive i j)
    ∧ (psoTell x fitness s).archive = x
    ∧ (psoTell x fitness s).fitness = fitness := by
  by_cases hle : fitness i ≤ s.best_fitness i
  · refine ⟨?_, ?_, ?_, rfl, rfl⟩
    all_goals simp [psoTell, psoReplace, hle]
  · refine ⟨?_, ?_, ?_, rfl, rfl⟩
    all_goals simp [psoTell, psoReplace, hle]

/-- C2: a Persistent_ES `tell` increments the inner-step counter by `K`
and resets the counter and the perturbation accumulator to zero exactly
when the incremented counter reaches or exceeds `T` (and keeps them
otherwise); `ask` adds the fresh perturbations into the accumulator
without overwriting it and touches neither counter nor sigma. -/
theorem pers_reset_exactly_at_T (P h : ℕ) (p : PersParams)
    (fitness : ℕ → ℝ) (z : ℕ → ℕ → ℝ) (s : PersState) :
    (persTell P p fitness s).inner_step_counter
        = (if p.T ≤ s.inner_step_counter + p.K then 0
           else s.inner_step_counter + p.K)
    ∧ (persTell P p fitness s).pert_accum
        = (if p.T ≤ s.inner_step_counter + p.K then (fun _ _ => (0 : ℝ))
           else s.pert_accum)
    ∧ (persAsk h z s).2.pert_accum
        = (fun i j => s.pert_accum i j + persPerts h s.sigma z i j)
    ∧ (persAsk h z s).2.inner_step_counter = s.inner_step_counter
    ∧ (persAsk h z s).2.sigma = s.sigma :=
  ⟨rfl, rfl, rfl, rfl, rfl⟩

/-- Over any additive commutative group, the antithetic concatenation of
`h` rows with their negations sums to zero in every column. -/
lemma antithetic_sum {α : Type} [AddCommGroup α] (h : ℕ) (z : ℕ → ℕ → α)
    (j : ℕ) :
    ∑ i in Finset.range (h + h), antithetic h z i j = 0 := by
  rw [Finset.sum_range_add]
  have h1 : ∑ i in Finset.range h, antithetic h z i j
      = ∑ i in Finset.range h, z i j :=
    Finset.sum_congr rfl (fun i hi => if_pos (Finset.mem_range.mp hi))
  have h2 : ∑ i in Finset.range h, antithetic h z (h + i) j
      = ∑ i in Finset.range h, -(z i j) := by
    refine Finset.sum_congr rfl (fun i _ => ?_)
    have hnot : ¬ h + i < h := by omega
    simp [antithetic, hnot, Nat.add_sub_cancel_left]
  rw [h1, h2]
  simp

/-- C9: for each antithetic strategy (Open_NES over ℝ, PEPG over ℚ,
Persistent_ES over ℝ with sigma-scaled perturbations), the noise matrix
produced by `ask` is the concatenation of the `h = P/2` drawn rows with
their exact negations, the candidates are built from exactly this noise,
and the noise sums (hence averages) to exactly zero over the full
population. -/
theorem antithetic_noise_zero_mean (h : ℕ) (zQ : ℕ → ℕ → ℚ)
    (zR : ℕ → ℕ → ℝ) (sP : PepgState) (sO : OpenState) (sR : PersState)
    (j : ℕ) :
    (∀ i : Fin h, antithetic h zQ (i : ℕ) j = zQ (i : ℕ) j
       ∧ antithetic h zQ (h + (i : ℕ)) j = -(zQ (i : ℕ) j))
    ∧ (∀ i : Fin h, antithetic h zR (i : ℕ) j = zR (i : ℕ) j
       ∧ antithetic h zR (h + (i : ℕ)) j = -(zR (i : ℕ) j))
    ∧ (∀ i, (pepgAsk h zQ sP).1 i j
        = sP.mean j + antithetic h zQ i j * sP.sigma j)
    ∧ (∀ i, (openAsk h zR sO).1 i j
        = sO.opt.mean j + sO.sigma * antithetic h zR i j)
    ∧ (∀ i, (persAsk h zR sR).1 i j
        = sR.opt.mean j + persPerts h sR.sigma zR i j)
    ∧ (∑ i in Finset.range (h + h), antithetic h zQ i j) = 0
    ∧ (∑ i in Finset.range (h + h), antithetic h zR i j) = 0
    ∧ (∑ i in Finset.range (h + h), persPerts h sR.sigma zR i j) = 0
    ∧ (∑ i in Finset.range (h + h), antithetic h zQ i j) / ((h : ℚ) + h) = 0 := by
  have half : ∀ {α : Type} [inst : AddCommGroup α] (z : ℕ → ℕ → α)
      (i : Fin h), antithetic h z (i : ℕ) j = z (i : ℕ) j
        ∧ antithetic h z (h + (i : ℕ)) j = -(z (i : ℕ) j) := by
    intro α inst z i
    constructor
    · exact if_pos i.isLt
    · have hnot : ¬ h + (i : ℕ) < h := by omega
      simp [antithetic, hnot, Nat.add_sub_cancel_left]
  refine ⟨fun i => half zQ i, fun i => half zR i, fun i => rfl, fun i => rfl,
    fun i => rfl, antithetic_sum h zQ j, antithetic_sum h zR j,
    antithetic_sum h (fun i j => zR i j * sR.sigma) j, ?_⟩
  rw [antithetic_sum h zQ j]
  exact zero_div _

/-- C10: under the Open_NES default parameters, `sigma_init = sigma_limit`
and `lrate_init = lrate_limit`, the decay-then-floor step is the identity
at those values, and after any number of `tell` calls from an initialized
state both `sigma` and `lrate` are exactly their initial values. -/
theorem open_defaults_keep_sigma_lrate :
    openDefaultParams.sigma_init = openDefaultParams.sigma_limit
    ∧ openDefaultParams.lrate_init = openDefaultParams.lrate_limit
    ∧ max (openDefaultParams.sigma_init * openDefaultParams.sigma_decay)
        openDefaultParams.sigma_limit = openDefaultParams.sigma_init
    ∧ max (openDefaultParams.lrate_init * openDefaultParams.lrate_decay)
        openDefaultParams.lrate_limit = openDefaultParams.lrate_init
    ∧ ∀ (P : ℕ) (xs : ℕ → ℕ → ℕ → ℝ) (fs : ℕ → ℕ → ℝ) (mean0 : ℕ → ℝ)
        (n : ℕ),
        (openIter P openDefaultParams xs fs n
            (openInit openDefaultParams mean0)).sigma
          = openDefaultParams.sigma_init
        ∧ (openIter P openDefaultParams xs fs n
            (openInit openDefaultParams mean0)).opt.lrate
          = openDefaultParams.lrate_init := by
  have hs : max (openDefaultParams.sigma_init * openDefaultParams.sigma_decay)
      openDefaultParams.sigma_limit = openDefaultParams.sigma_init := by
    show max ((1 / 10 : ℝ) * (999 / 1000)) (1 / 10) = 1 / 10
    rw [max_eq_right (by norm_num)]
  have hl : max (openDefaultParams.lrate_init * openDefaultParams.lrate_decay)
      openDefaultParams.lrate_limit = openDefaultParams.lrate_init := by
    show max ((1 / 100 : ℝ) * (999 / 1000)) (1 / 100) = 1 / 100
    rw [max_eq_right (by norm_num)]
  refine ⟨rfl, rfl, hs, hl, ?_⟩
  intro P xs fs mean0 n
  induction n with
  | zero => exact ⟨rfl, rfl⟩
  | succ n ih =>
    obtain ⟨ihs, ihl⟩ := ih
    constructor
    · have hstep : (openIter P openDefaultParams xs fs (n + 1)
            (openInit openDefaultParams mean0)).sigma
          = max ((openIter P openDefaultParams xs fs n
              (openInit openDefaultParams mean0)).sigma
              * openDefaultParams.sigma_decay) openDefaultParams.sigma_limit :=
        rfl
      rw [hstep, ihs]
      exact hs
    · have hstep : (openIter P openDefaultParams xs fs (n + 1)
            (openInit openDefaultParams mean0)).opt.lrate
          = max ((openIter P openDefaultParams xs fs n
              (openInit openDefaultParams mean0)).opt.lrate
              * openDefaultParams.lrate_decay) openDefaultParams.lrate_limit :=
        rfl
      rw [hstep, ihl]
      exact hl

/-- C3: for Open_NES, PEPG and Persistent_ES, whenever the configured
initial values respect their floors, after any number of `tell` calls
from an initialized state `sigma` stays above `sigma_limit` (element-wise
for PEPG's sigma vector) and `lrate` stays above `lrate_limit` — for PEPG
even after the adaptive sigma adjustment, since the floor clamp is the
last operation applied. -/
theorem sigma_lrate_floors
    (pO : OpenParams) (pP : PepgParams) (pR : PersParams)
    (hO1 : pO.sigma_limit ≤ pO.sigma_init)
    (hO2 : pO.lrate_limit ≤ pO.lrate_init)
    (hP1 : pP.sigma_limit ≤ pP.sigma_init)
    (hP2 : pP.lrate_limit ≤ pP.lrate_init)
    (hR1 : pR.sigma_limit ≤ pR.sigma_init)
    (hR2 : pR.adam.lrate_limit ≤ pR.lrate_init)
    (P hh k : ℕ) (mO mR : ℕ → ℝ) (mP : ℕ → ℚ)
    (xsO : ℕ → ℕ → ℕ → ℝ) (fsO fsR : ℕ → ℕ → ℝ)
    (xsP : ℕ → ℕ → ℕ → ℚ) (fsP : ℕ → ℕ → ℚ) (n j : ℕ) :
    (pO.sigma_limit ≤ (openIter P pO xsO fsO n (openInit pO mO)).sigma
     ∧ pO.lrate_limit ≤ (openIter P pO xsO fsO n (openInit pO mO)).opt.lrate)
    ∧ (pP.sigma_limit ≤ (pepgIter hh k pP xsP fsP n (pepgInit pP mP)).sigma j
       ∧ pP.lrate_limit ≤ (pepgIter hh k pP xsP fsP n (pepgInit pP mP)).lrate)
    ∧ (pR.sigma_limit ≤ (persIter P pR fsR n (persInit pR mR)).sigma
       ∧ pR.adam.lrate_limit
           ≤ (persIter P pR fsR n (persInit pR mR)).opt.lrate) := by
  refine ⟨?_, ?_, ?_⟩
  · induction n with
    | zero => exact ⟨hO1, hO2⟩
    | succ n ih => exact ⟨le_max_right _ _, le_max_right _ _⟩
  · induction n with
    | zero => exact ⟨hP1, hP2⟩
    | succ n ih => exact ⟨le_max_right _ _, le_max_right _ _⟩
  · induction n with
    | zero => exact ⟨hR1, hR2⟩
    | succ n ih => exact ⟨le_max_right _ _, le_max_right _ _⟩

/-- Witness for C3 at concrete parameters whose initial values equal the
floors, with two tell calls on constant inputs. -/
theorem sigma_lrate_floors_witness :
    (openDefaultParams.sigma_limit ≤ openDefaultParams.sigma_init
     ∧ openDefaultParams.lrate_limit ≤ openDefaultParams.lrate_init
     ∧ wPepgParams.sigma_limit ≤ wPepgParams.sigma_init
     ∧ wPepgParams.lrate_limit ≤ wPepgParams.lrate_init
     ∧ wPersParams.sigma_limit ≤ wPersParams.sigma_init
     ∧ wPersParams.adam.lrate_limit ≤ wPersParams.lrate_init)
    ∧ ((openDefaultParams.sigma_limit
          ≤ (openIter 2 openDefaultParams (fun _ _ _ => 0) (fun _ _ => 0) 2
              (openInit openDefaultParams (fun _ => 0))).sigma
        ∧ openDefaultParams.lrate_limit
          ≤ (openIter 2 openDefaultParams (fun _ _ _ => 0) (fun _ _ => 0) 2
              (openInit openDefaultParams (fun _ => 0))).opt.lrate)
      ∧ (wPepgParams.sigma_limit
          ≤ (pepgIter 1 1 wPepgParams (fun _ _ _ => 0) (fun _ _ => 0) 2
              (pepgInit wPepgParams (fun _ => 0))).sigma 0
        ∧ wPepgParams.lrate_limit
          ≤ (pepgIter 1 1 wPepgParams (fun _ _ _ => 0) (fun _ _ => 0) 2
              (pepgInit wPepgParams (fun _ => 0))).lrate)
      ∧ (wPersParams.sigma_limit
          ≤ (persIter 2 wPersParams (fun _ _ => 0) 2
              (persInit wPersParams (fun _ => 0))).sigma
        ∧ wPersParams.adam.lrate_limit
          ≤ (persIter 2 wPersParams (fun _ _ => 0) 2
              (persInit wPersParams (fun _ => 0))).opt.lrate)) :=
  ⟨⟨le_refl _, le_refl _, le_refl _, le_refl _, le_refl _, le_refl _⟩,
   sigma_lrate_floors openDefaultParams wPepgParams wPersParams
     (le_refl _) (le_refl _) (le_refl _) (le_refl _) (le_refl _) (le_refl _)
     2 1 1 (fun _ => 0) (fun _ => 0) (fun _ => 0)
     (fun _ _ _ => 0) (fun _ _ => 0) (fun _ _ => 0)
     (fun _ _ _ => 0) (fun _ _ => 0) 2 0⟩

/-- C4: Open_NES `tell` reconstructs the noise as `(x - mean) / sigma`,
builds the gradient estimate `1/(P*sigma) * noiseᵀ·fitness`, feeds it to
the Adam step and then applies decay-then-floor to `lrate` and `sigma`;
when `tell` receives exactly the candidates `ask` produced on the same
state (and `sigma ≠ 0`), the reconstructed noise is exactly the drawn
antithetic noise. -/
theorem open_tell_noise_roundtrip (P h : ℕ) (p : OpenParams)
    (z : ℕ → ℕ → ℝ) (x : ℕ → ℕ → ℝ) (fitness : ℕ → ℝ) (s : OpenState)
    (hσ : s.sigma ≠ 0) :
    (∀ i j, openNoise s (openAsk h z s).1 i j = antithetic h z i j)
    ∧ (openAsk h z s).2 = s
    ∧ openGrad P s x fitness
        = (fun j => 1 / ((P : ℝ) * s.sigma)
            * ∑ i in Finset.range P,
                (x i j - s.opt.mean j) / s.sigma * fitness i)
    ∧ openTell P p x fitness s
        = { opt := { adamStep p.adam s.opt (openGrad P s x fitness) with
                     lrate := max ((adamStep p.adam s.opt
                        (openGrad P s x fitness)).lrate * p.lrate_decay)
                        p.lrate_limit },
            sigma := max (s.sigma * p.sigma_decay) p.sigma_limit } := by
  refine ⟨?_, rfl, rfl, rfl⟩
  intro i j
  simp only [openNoise, openAsk]
  rw [add_sub_cancel_left]
  exact mul_div_cancel_left₀ _ hσ

/-- Witness for C4 at a concrete state with `sigma = 1` and concrete
draws and inputs. -/
theorem open_tell_noise_roundtrip_witness :
    wOpenState.sigma ≠ 0
    ∧ ((∀ i j, openNoise wOpenState
          (openAsk 1 (fun _ _ => 2) wOpenState).1 i j
          = antithetic 1 (fun _ _ => (2 : ℝ)) i j)
      ∧ (openAsk 1 (fun _ _ => 2) wOpenState).2 = wOpenState
      ∧ openGrad 2 wOpenState (fun _ _ => 0) (fun _ => 0)
          = (fun j => 1 / ((2 : ℕ) * wOpenState.sigma)
              * ∑ i in Finset.range 2,
                  ((fun _ _ => (0 : ℝ)) i j - wOpenState.opt.mean j)
                    / wOpenState.sigma * (fun _ => (0 : ℝ)) i)
      ∧ openTell 2 openDefaultParams (fun _ _ => 0) (fun _ => 0) wOpenState
          = { opt := { adamStep openDefaultParams.adam wOpenState.opt
                (openGrad 2 wOpenState (fun _ _ => 0) (fun _ => 0)) with
                       lrate := max ((adamStep openDefaultParams.adam
                          wOpenState.opt (openGrad 2 wOpenState
                            (fun _ _ => 0) (fun _ => 0))).lrate
                          * openDefaultParams.lrate_decay)
                          openDefaultParams.lrate_limit },
              sigma := max (wOpenState.sigma * openDefaultParams.sigma_decay)
                  openDefaultParams.sigma_limit }) :=
  ⟨one_ne_zero,
   open_tell_noise_roundtrip 2 1 openDefaultParams (fun _ _ => 2)
     (fun _ _ => 0) (fun _ => 0) wOpenState one_ne_zero⟩

/-- C5: SNES `get_update` sorts the reconstructed noise ascending by
fitness (the sorting permutation makes the fitness monotone) and returns
`delta_mean = lrate_mean * sigma * Σ w_i * sorted_noise_i` and
`delta_sigma = exp(lrate_sigma/2 * Σ w_i * (sorted_noise_i² - 1))`;
`apply_update` then produces `mean + delta_mean` and `sigma * delta_sigma`
(the cross-worker mean reduction being the identity on one worker). -/
theorem snes_update_formulas (P : ℕ) (x : Fin P → ℕ → ℝ)
    (fitness : Fin P → ℝ) (s : SnesState P) (p : SnesParams) (j : ℕ) :
    Monotone (fitness ∘ (snesRanks P fitness))
    ∧ (snesGetUpdate P x fitness s p).delta_mean j
        = p.lrate_mean * s.sigma j
          * ∑ i : Fin P, s.weights i
              * ((x (snesRanks P fitness i) j - s.mean j) / s.sigma j)
    ∧ (snesGetUpdate P x fitness s p).delta_sigma j
        = Real.exp (p.lrate_sigma / 2
            * ∑ i : Fin P, s.weights i
                * (((x (snesRanks P fitness i) j - s.mean j) / s.sigma j) ^ 2
                    - 1))
    ∧ (snesApplyUpdate P (snesGetUpdate P x fitness s p) s p).mean j
        = s.mean j + (snesGetUpdate P x fitness s p).delta_mean j
    ∧ (snesApplyUpdate P (snesGetUpdate P x fitness s p) s p).sigma j
        = s.sigma j * (snesGetUpdate P x fitness s p).delta_sigma j :=
  ⟨Tuple.monotone_sort fitness, rfl, rfl, rfl, rfl⟩

/-- C6 counterexample: at `popsize = 4` and rank index `3` (the source's
rank 4), the weight the source computes (with the `max(0, ·)` clamp
before normalization, `get_snes_weights`) differs from the weight the
claim describes (the unclamped `log(P/2+1) - log(i)`, normalized,
baseline-subtracted). -/
theorem snes_weights_claim_counterexample :
    get_snes_weights 4 ⟨3, by norm_num⟩ ≠ snesWeightsClaimed 4 ⟨3, by norm_num⟩ := by
  have hlt : Real.log 3 < Real.log 4 := Real.log_lt_log (by norm_num) (by norm_num)
  have h34 : Real.log 3 - Real.log 4 < 0 := sub_neg.mpr hlt
  have h27 : Real.log 27 = 3 * Real.log 3 := by
    rw [show (27 : ℝ) = 3 ^ 3 by norm_num, Real.log_pow]
    push_cast
    ring
  have h8 : Real.log 8 = Real.log 2 + Real.log 4 := by
    rw [show (8 : ℝ) = 2 * 4 by norm_num, Real.log_mul] <;> norm_num
  have h827 : Real.log 8 < Real.log 27 :=
    Real.log_lt_log (by norm_num) (by norm_num)
  have hS : 0 < 3 * Real.log 3 - Real.log 2 - Real.log 4 := by linarith
  have hmax : (0 : ℝ) ⊔ (Real.log 3 - Real.log 4) = 0 := max_eq_left h34.le
  have hsum2 : (∑ x in Finset.range 4, Real.log ((x : ℝ) + 1))
      = Real.log 2 + Real.log 3 + Real.log 4 := by
    simp [Finset.sum_range_succ]
    ring_nf
  simp only [get_snes_weights, snesWeightsClaimed]
  norm_num
  rw [hmax, hsum2, zero_div]
  intro heq
  have heq2 : (Real.log 3 - Real.log 4)
      / (3 * Real.log 3 - Real.log 2 - Real.log 4) = 0 := by
    rw [show 3 * Real.log 3 - Real.log 2 - Real.log 4
        = 4 * Real.log 3 - (Real.log 2 + Real.log 3 + Real.log 4) by ring]
    exact heq.symm
  exact (div_ne_zero (ne_of_lt h34) (ne_of_gt hS)) heq2

/-- C6 (amended): the weights stored at SNES initialization equal, when
`temperature ≤ 0` (i.e. not `> 0`), the rank weights
`max(0, log(P/2+1) - log(rank))` normalized to sum one minus the baseline
`1/P`; when `temperature > 0` the temperature-weighted `des` weights are
used instead; and the weights field is never changed by `ask` or
`apply_update` (`get_update` returns only a delta and no state). -/
theorem snes_weights_amended (P : ℕ) (desW : Fin P → ℝ) (mean0 : ℕ → ℝ)
    (p : SnesParams) (u : SnesUpdate) (noise : Fin P → ℕ → ℝ) (i : Fin P) :
    (snesInit P desW mean0 p).weights
        = (if 0 < p.temperature then desW else get_snes_weights P)
    ∧ get_snes_weights P i
        = max 0 (Real.log ((P : ℝ) / 2 + 1) - Real.log ((i : ℕ) + 1))
          / (∑ k in Finset.range P,
              max 0 (Real.log ((P : ℝ) / 2 + 1) - Real.log ((k : ℝ) + 1)))
          - 1 / (P : ℝ)
    ∧ (snesAsk P noise (snesInit P desW mean0 p)).2 = snesInit P desW mean0 p
    ∧ (snesApplyUpdate P u (snesInit P desW mean0 p) p).weights
        = (snesInit P desW mean0 p).weights :=
  ⟨rfl, rfl, rfl, rfl⟩

end Evosax
